import Mathlib

set_option maxRecDepth 100000
set_option maxHeartbeats 1000000

/-! # Verification of the rusty-chain core

A shallow embedding of the core of the `rusty-chain` repository
(`src/core/blockchain.rs`, `src/core/nodemanager.rs`) in Lean 4, with
theorems settling the specification's claims about it.

Machine integers (`u32`, `u64`) are modelled as `Nat` with explicit
`% 2^32` / `% 2^64` at the points where the Rust code's fixed-width
(release-mode wrapping) arithmetic matters.  Rust panics are modelled
as `Option.none`.  Network effects (peer handshakes, chain fetches) are
modelled as explicit parameters.
-/

/-! ## SHA-256

The `crypto` crate's `Sha256` with `result_str()`, i.e. FIPS 180-4 SHA-256
over a byte string, with the digest rendered as lowercase hexadecimal.
Bytes are `Nat` values below 256; 32-bit words are `Nat` values below
`2 ^ 32`.
-/

namespace Sha256

/-- Right-rotation of a 32-bit word by `r` bits. -/
def rotr (r x : Nat) : Nat :=
  ((x >>> r) ||| (x <<< (32 - r))) % 2 ^ 32

/-- Small sigma-0 schedule function. -/
def ssig0 (x : Nat) : Nat := rotr 7 x ^^^ rotr 18 x ^^^ (x >>> 3)

/-- Small sigma-1 schedule function. -/
def ssig1 (x : Nat) : Nat := rotr 17 x ^^^ rotr 19 x ^^^ (x >>> 10)

/-- Big sigma-0 round function. -/
def bsig0 (x : Nat) : Nat := rotr 2 x ^^^ rotr 13 x ^^^ rotr 22 x

/-- Big sigma-1 round function. -/
def bsig1 (x : Nat) : Nat := rotr 6 x ^^^ rotr 11 x ^^^ rotr 25 x

/-- Choice function: for each bit, `y` where `x` is set, else `z`. -/
def ch (x y z : Nat) : Nat := (x &&& y) ^^^ ((x ^^^ 0xffffffff) &&& z)

/-- Majority function. -/
def maj (x y z : Nat) : Nat := (x &&& y) ^^^ (x &&& z) ^^^ (y &&& z)

/-- The 64 round constants (FIPS 180-4 section 4.2.2, the fractional parts
of the cube roots of the first 64 primes), written in decimal. -/
def K : List Nat :=
  [1116352408, 1899447441, 3049323471, 3921009573, 961987163,
   1508970993, 2453635748, 2870763221, 3624381080, 310598401,
   607225278, 1426881987, 1925078388, 2162078206, 2614888103,
   3248222580, 3835390401, 4022224774, 264347078, 604807628,
   770255983, 1249150122, 1555081692, 1996064986, 2554220882,
   2821834349, 2952996808, 3210313671, 3336571891, 3584528711,
   113926993, 338241895, 666307205, 773529912, 1294757372,
   1396182291, 1695183700, 1986661051, 2177026350, 2456956037,
   2730485921, 2820302411, 3259730800, 3345764771, 3516065817,
   3600352804, 4094571909, 275423344, 430227734, 506948616,
   659060556, 883997877, 958139571, 1322822218, 1537002063,
   1747873779, 1955562222, 2024104815, 2227730452, 2361852424,
   2428436474, 2756734187, 3204031479, 3329325298]

/-- The initial hash value (FIPS 180-4 section 5.3.3, the fractional parts
of the square roots of the first 8 primes), written in decimal. -/
def H0 : List Nat :=
  [1779033703, 3144134277, 1013904242, 2773480762,
   1359893119, 2600822924, 528734635, 1541459225]

/-- Extend the 16 message-schedule words to 64, one word per step. -/
def extendW (w : List Nat) : Nat → List Nat
  | 0 => w
  | n + 1 =>
    let t := w.length
    extendW
      (w ++ [(ssig1 (w.getD (t - 2) 0) + w.getD (t - 7) 0 +
              ssig0 (w.getD (t - 15) 0) + w.getD (t - 16) 0) % 2 ^ 32]) n

/-- One compression round: update the running eight-word state with round
constant `k` and schedule word `w`. -/
def round (st : List Nat) (kw : Nat × Nat) : List Nat :=
  match st with
  | [a, b, c, d, e, f, g, h] =>
    let t1 := (h + bsig1 e + ch e f g + kw.1 + kw.2) % 2 ^ 32
    let t2 := (bsig0 a + maj a b c) % 2 ^ 32
    [(t1 + t2) % 2 ^ 32, a, b, c, (d + t1) % 2 ^ 32, e, f, g]
  | _ => st

/-- Compress one 16-word message block into the running hash value. -/
def compress (h : List Nat) (block : List Nat) : List Nat :=
  let w := extendW block 48
  let st := (K.zip w).foldl round h
  (h.zip st).map fun p => (p.1 + p.2) % 2 ^ 32

/-- Big-endian 8-byte encoding of a 64-bit value. -/
def be64 (n : Nat) : List Nat :=
  [n / 2 ^ 56 % 256, n / 2 ^ 48 % 256, n / 2 ^ 40 % 256, n / 2 ^ 32 % 256,
   n / 2 ^ 24 % 256, n / 2 ^ 16 % 256, n / 2 ^ 8 % 256, n % 256]

/-- FIPS 180-4 padding: append `0x80`, zero bytes up to 56 mod 64, then the
bit length as a big-endian 64-bit value. -/
def pad (msg : List Nat) : List Nat :=
  msg ++ [0x80] ++ List.replicate ((119 - msg.length % 64) % 64) 0 ++
    be64 ((msg.length * 8) % 2 ^ 64)

/-- Group bytes into big-endian 32-bit words. -/
def toWords : List Nat → List Nat
  | b0 :: b1 :: b2 :: b3 :: rest =>
    (((b0 * 256 + b1) * 256 + b2) * 256 + b3) :: toWords rest
  | _ => []

/-- Split a word list into 16-word blocks; the fuel bounds the recursion and
is in practice at least the number of blocks. -/
def toBlocks : Nat → List Nat → List (List Nat)
  | 0, _ => []
  | _ + 1, [] => []
  | fuel + 1, ws => ws.take 16 :: toBlocks fuel (ws.drop 16)

/-- The digest of a byte string, as eight 32-bit words. -/
def digestWords (msg : List Nat) : List Nat :=
  let ws := toWords (pad msg)
  (toBlocks ws.length ws).foldl compress H0

/-- A hex digit character, lowercase. -/
def hexDigit (n : Nat) : Char :=
  if n < 10 then Char.ofNat (48 + n) else Char.ofNat (87 + n)

/-- Eight lowercase hex characters of a 32-bit word, most significant first. -/
def wordHex (w : Nat) : List Char :=
  [hexDigit (w / 2 ^ 28 % 16), hexDigit (w / 2 ^ 24 % 16),
   hexDigit (w / 2 ^ 20 % 16), hexDigit (w / 2 ^ 16 % 16),
   hexDigit (w / 2 ^ 12 % 16), hexDigit (w / 2 ^ 8 % 16),
   hexDigit (w / 2 ^ 4 % 16), hexDigit (w % 16)]

/-- The lowercase hexadecimal digest string of a byte string: the model of
`Sha256::result_str()`. -/
def hexDigest (msg : List Nat) : String :=
  String.mk ((digestWords msg).map wordHex).flatten

end Sha256

/-- The UTF-8 bytes of a scalar value (code point). -/
def utf8Bytes (c : Nat) : List Nat :=
  if c < 0x80 then [c]
  else if c < 0x800 then [0xc0 + c / 64, 0x80 + c % 64]
  else if c < 0x10000 then
    [0xe0 + c / 4096, 0x80 + c / 64 % 64, 0x80 + c % 64]
  else
    [0xf0 + c / 262144, 0x80 + c / 4096 % 64, 0x80 + c / 64 % 64,
     0x80 + c % 64]

/-- The UTF-8 bytes of a string, as `Nat` values below 256. -/
def strBytes (s : String) : List Nat :=
  (s.data.map Char.toNat).flatMap utf8Bytes

/-- Rust `str::ends_with`: suffix comparison on the character lists.  (An
executable model of `String.endsWith`, whose byte-position loop is defined
by well-founded recursion and does not reduce in the kernel.) -/
def strEndsWith (s suffix : String) : Bool :=
  suffix.data.isSuffixOf s.data

/-! ## Data model (src/core/blockchain.rs)

`u32` and `u64` fields are `Nat`; `i64` timestamps are `Int`.  The wrapping
of fixed-width arithmetic is applied explicitly (`% 2 ^ 32`, `% 2 ^ 64`)
where the Rust code computes, casts or serializes such values.
-/

/-- The `Transaction` struct (src/core/blockchain.rs). -/
structure Transaction where
  sender : String
  recipient : String
  amount : Nat
deriving DecidableEq, Inhabited

/-- The constructor `Transaction::new`. -/
def Transaction.new (sender recipient : String) (amount : Nat) : Transaction :=
  { sender, recipient, amount }

/-- The `Block` struct (src/core/blockchain.rs). -/
structure Block where
  index : Nat
  timestamp : Int
  transactions : List Transaction
  proof : Nat
  previous_hash : String
deriving DecidableEq, Inhabited

/-- The alias `pub type Chain = Vec<Block>`. -/
abbrev Chain := List Block

/-- The `Blockchain` state: the chain and the pending-transaction pool.  The
`node_manager` field is the peer registry, modelled separately
(`P2PNodeManager` below); network effects are passed to the operations
explicitly. -/
structure Blockchain where
  chain : Chain
  pending_transactions : List Transaction
deriving DecidableEq, Inhabited

/-! ## bincode serialization and `Blockchain::hash`

`Blockchain::hash` is the SHA-256 hex digest of
`bincode::serialize(block, Infinite)`.  bincode encodes struct fields in
declaration order: `u32`/`u64`/`i64` little-endian at their fixed widths,
sequences and strings with a `u64` length followed by the elements
(UTF-8 bytes for strings).  `i64` uses two's complement, here via the
non-negative representative of the value mod `2 ^ 64`. -/

/-- Little-endian 4-byte encoding of a `u32`. -/
def u32LE (n : Nat) : List Nat :=
  [n % 256, n / 256 % 256, n / 256 ^ 2 % 256, n / 256 ^ 3 % 256]

/-- Little-endian 8-byte encoding of a `u64`. -/
def u64LE (n : Nat) : List Nat :=
  [n % 256, n / 256 % 256, n / 256 ^ 2 % 256, n / 256 ^ 3 % 256,
   n / 256 ^ 4 % 256, n / 256 ^ 5 % 256, n / 256 ^ 6 % 256,
   n / 256 ^ 7 % 256]

/-- Little-endian 8-byte two's-complement encoding of an `i64`. -/
def i64LE (t : Int) : List Nat := u64LE (t % (2 ^ 64 : Int)).toNat

/-- bincode encoding of a string: `u64` byte length, then UTF-8 bytes. -/
def serString (s : String) : List Nat :=
  u64LE (strBytes s).length ++ strBytes s

/-- bincode encoding of a `Transaction`. -/
def serTransaction (t : Transaction) : List Nat :=
  serString t.sender ++ serString t.recipient ++ u64LE (t.amount % 2 ^ 64)

/-- bincode encoding of a `Block`, fields in declaration order. -/
def serBlock (b : Block) : List Nat :=
  u32LE (b.index % 2 ^ 32) ++ i64LE b.timestamp ++
    u64LE (b.transactions.length % 2 ^ 64) ++
    (b.transactions.map serTransaction).flatten ++
    u64LE (b.proof % 2 ^ 64) ++ serString b.previous_hash

namespace Blockchain

/-- The constant `Blockchain::ORIGIN_SENDER`. -/
def ORIGIN_SENDER : String := "0"

/-- The constant `Blockchain::ORIGIN_HASH`. -/
def ORIGIN_HASH : String := "1"

/-- Rust `Blockchain::hash`: SHA-256 hex digest of the bincode-serialized
block. -/
def hash (b : Block) : String := Sha256.hexDigest (serBlock b)

/-- Rust `Blockchain::valid_proof`: the SHA-256 hex digest of the decimal
string of `last_proof * proof` (the `u64` product wraps in release mode,
hence `% 2 ^ 64`) must end with four `'0'` characters. -/
def valid_proof (last_proof proof : Nat) : Bool :=
  strEndsWith
    (Sha256.hexDigest (strBytes (Nat.repr (last_proof * proof % 2 ^ 64))))
    "0000"

/-- Rust `Blockchain::proof_of_work`: the `while` loop tries `proof = 0, 1, 2, …`
until `valid_proof` accepts; it terminates exactly when some candidate is
accepted — the hypothesis `h` records that — and then returns the first
(smallest) accepted candidate, which is `Nat.find h`. -/
def proof_of_work (last_proof : Nat)
    (h : ∃ p, valid_proof last_proof p = true) : Nat :=
  Nat.find h

/-- The last block of a chain; the default is never reached, as every use
is guarded by non-emptiness (`last_block()` would panic there). -/
def lastD (c : Chain) : Block := c.getLast?.getD default

/-- The body of `Blockchain::new_block` once `previous_hash` is resolved:
build the block from the pending pool at the next index (`len as u32 + 1`,
wrapping), clear the pool, append the block, and return it. -/
def push_block (bc : Blockchain) (t : Int) (proof : Nat) (ph : String) :
    Blockchain × Block :=
  let b : Block :=
    { index := (bc.chain.length % 2 ^ 32 + 1) % 2 ^ 32
      timestamp := t
      transactions := bc.pending_transactions
      proof := proof
      previous_hash := ph }
  ({ chain := bc.chain ++ [b], pending_transactions := [] }, b)

/-- Rust `Blockchain::new_block`: use the given `previous_hash`, or else the
hash of the last block — where `last_block()` panics on an empty chain,
modelled as `none`.  `t` is the `Utc::now().timestamp()` reading. -/
def new_block (bc : Blockchain) (t : Int) (proof : Nat)
    (previous_hash : Option String) : Option (Blockchain × Block) :=
  (match previous_hash with
    | some s => some s
    | none => bc.chain.getLast?.map hash).map (bc.push_block t proof)

/-- Rust `Blockchain::new`: start from an empty chain and pool and create the
genesis block via `new_block(100, Some("1"))`; the `getD` default is dead,
since the previous hash is given. -/
def new (t : Int) : Blockchain :=
  (((⟨[], []⟩ : Blockchain).new_block t 100 (some ORIGIN_HASH)).getD
    (⟨[], []⟩, default)).1

/-- Rust `Blockchain::new_transaction`: push the transaction onto the pending
pool and return the chain length as `u32`. -/
def new_transaction (bc : Blockchain) (sender recipient : String)
    (amount : Nat) : Blockchain × Nat :=
  ({ bc with
      pending_transactions :=
        bc.pending_transactions ++ [Transaction.new sender recipient amount] },
   bc.chain.length % 2 ^ 32)

/-- Rust `Blockchain::mine`: read the last block's proof (`hne` precludes the
`last_block()` panic), run the proof-of-work search (`h` records its
termination), push the mining-reward transaction
`{sender: "0", recipient: uuid, amount: 1}`, and seal the pool into a new
block whose previous hash is the last block's hash — the
`new_block(proof, None)` call, with its `none` case precluded by `hne`. -/
def mine (bc : Blockchain) (uuid : String) (t : Int) (hne : bc.chain ≠ [])
    (h : ∃ p, valid_proof (lastD bc.chain).proof p = true) :
    Blockchain × Block :=
  let pw := proof_of_work (lastD bc.chain).proof h
  let bc1 := (bc.new_transaction ORIGIN_SENDER uuid 1).1
  bc1.push_block t pw (hash (lastD bc.chain))

/-- The per-pair check of `Blockchain::validate_chain` on adjacent blocks
`(a, b)`: hash linkage and the seal check `valid_proof(b.proof, a.proof)` —
note the reversed argument order relative to mining. -/
def link_ok (a b : Block) : Bool :=
  (hash a == b.previous_hash) && valid_proof b.proof a.proof

/-- Rust `Blockchain::validate_chain`: check every adjacent pair
(`chain.iter().zip(&chain[1..])`).  On an empty chain the slice
`&chain[1..]` panics (range start 1 out of range for length 0), modelled
as `none`. -/
def validate_chain (chain : Chain) : Option Bool :=
  match chain with
  | [] => none
  | _ :: _ =>
    some ((chain.zip (chain.drop 1)).all fun ab => link_ok ab.1 ab.2)

/-- Rust `Blockchain::resolve_conflicts`, with the outcome of
`node_manager.get_chains()` passed in as `fetched`.  The Rust `&&`
short-circuits, so `validate_chain` is only reached on chains strictly
longer than the local one, hence non-empty — there the `some true`
comparison coincides with the Rust boolean. -/
def resolve_conflicts (bc : Blockchain) (fetched : List Chain) :
    Blockchain × Bool :=
  match fetched.find?
      (fun c => decide (bc.chain.length < c.length) &&
        (validate_chain c == some true)) with
  | some c => ({ bc with chain := c }, true)
  | none => (bc, false)

end Blockchain

/-! ## Peer registry (src/core/nodemanager.rs) -/

/-- The `Node` struct: identity is the address (value equality, hashable). -/
structure Node where
  address : String
deriving DecidableEq, Inhabited

/-- An opaque `reqwest::Error`. -/
structure NetError where
  id : Nat
deriving DecidableEq, Inhabited

/-- The `P2PNodeManager` struct: the local node's identity (the Rust field `local`, a
Lean keyword) and the known nodes.  The `HashSet<Node>` is modelled as a
duplicate-free list in the set's (arbitrary) iteration order; the
`reqwest::Client` is a network capability with no model state. -/
structure P2PNodeManager where
  local_node : Node
  nodes : List Node
deriving DecidableEq, Inhabited

namespace P2PNodeManager

/-- The constructor `P2PNodeManager::new`. -/
def new (local_node : Node) : P2PNodeManager := ⟨local_node, []⟩

/-- Rust `P2PNodeManager::add_node`.  The outbound `register_remote` handshake
(a `POST /node/register` to the remote) is a network effect, passed in as
its outcome.  Already-known peer: no-op, `Ok(false)`.  Unknown peer: on
handshake success insert and return `Ok(true)` (the `HashSet::insert`
result); on failure propagate the error without inserting. -/
def add_node (mgr : P2PNodeManager) (remote : Node)
    (handshake : Except NetError Unit) :
    Except NetError (P2PNodeManager × Bool) :=
  if mgr.nodes.contains remote then
    Except.ok (mgr, false)
  else
    match handshake with
    | Except.error e => Except.error e
    | Except.ok _ =>
      Except.ok ({ mgr with nodes := mgr.nodes ++ [remote] }, true)

/-- Rust `P2PNodeManager::get_nodes`: every known node other than the local
identity. -/
def get_nodes (mgr : P2PNodeManager) : List Node :=
  mgr.nodes.filter fun n => n != mgr.local_node

/-- Rust `P2PNodeManager::get_chains`: fetch the chain of every known node —
the whole `nodes` set, with no exclusion of the local identity — keeping
only the successful results (`filter_map(Result::ok)`).  The per-node
`GET /chain` is a network effect, passed in as `fetch`. -/
def get_chains (mgr : P2PNodeManager) (fetch : Node → Except NetError Chain) :
    List Chain :=
  (mgr.nodes.map fetch).filterMap fun r =>
    match r with
    | Except.ok c => some c
    | Except.error _ => none

end P2PNodeManager

/-! ## Reachable ledger states

The states produced by `Blockchain::new` followed by any sequence of
`new_transaction` and `mine` calls (each `mine` with a terminating
proof-of-work search, as recorded by its hypothesis). -/

inductive Reachable : Blockchain → Prop
  | new (t : Int) : Reachable (Blockchain.new t)
  | add_tx {bc : Blockchain} (s r : String) (a : Nat) :
      Reachable bc → Reachable (bc.new_transaction s r a).1
  | mine_step {bc : Blockchain} (uuid : String) (t : Int)
      (hne : bc.chain ≠ [])
      (h : ∃ p, Blockchain.valid_proof (Blockchain.lastD bc.chain).proof p = true) :
      Reachable bc → Reachable (bc.mine uuid t hne h).1

/-! ## Concrete demonstration states

The spec's scenario: fresh ledger, transaction added, mined, transaction
added, mined.  `3297` is an accepted proof-of-work candidate for the
genesis seal `100` (`SHA-256("329700")` ends in `"0000"`), discharging the
termination hypothesis of the first `mine`; the second `mine`'s hypothesis
is discharged later (`bcDemo3_pow`) with no further search. -/

def bcDemo0 : Blockchain := Blockchain.new 0

def bcDemo1 : Blockchain := (bcDemo0.new_transaction "alice" "bob" 10).1

def mineDemo1 : Blockchain × Block :=
  bcDemo1.mine "node-1" 1 (by decide) ⟨3297, by decide⟩

def bcDemo2 : Blockchain := mineDemo1.1

def bcDemo3 : Blockchain := (bcDemo2.new_transaction "alice" "bob" 15).1

/-! ## Sanity checks for the SHA-256 model (FIPS 180-4 test vectors) -/

example :
    Sha256.hexDigest (strBytes "abc") =
      "ba7816bf8f01cfea414140de5dae2223b00361a396177a9cb410ff61f20015ad" := by
  decide

example :
    Sha256.hexDigest (strBytes "") =
      "e3b0c44298fc1c149afbf4c8996fb92427ae41e4649b934ca495991b7852b855" := by
  decide

/-! ## Helper lemmas -/

/-- The proof-of-work predicate digests the wrapped product of its
arguments, so it is symmetric. -/
theorem valid_proof_comm (a b : Nat) :
    Blockchain.valid_proof a b = Blockchain.valid_proof b a := by
  unfold Blockchain.valid_proof
  rw [Nat.mul_comm]

/-- Appending one element extends the adjacent-pairs list by the pair of
the old last element and the new one. -/
theorem zip_drop_one_append {α : Type} [Inhabited α] (b : α) :
    ∀ (c : List α), c ≠ [] →
      (c ++ [b]).zip ((c ++ [b]).drop 1) =
        c.zip (c.drop 1) ++ [(c.getLast?.getD default, b)]
  | [], h => absurd rfl h
  | [x], _ => rfl
  | x :: y :: ys, _ => by
    have h := zip_drop_one_append b (y :: ys) (by simp)
    simp only [List.cons_append, List.drop_succ_cons, List.drop_zero,
      List.zip_cons_cons, List.getLast?_cons_cons] at h ⊢
    rw [h]

/-- Evaluating `validate_chain` on a non-empty chain: the conjunction of the per-pair
checks. -/
theorem validate_chain_of_ne (c : Chain) (hne : c ≠ []) :
    Blockchain.validate_chain c =
      some ((c.zip (c.drop 1)).all fun ab => Blockchain.link_ok ab.1 ab.2) := by
  cases c with
  | nil => exact absurd rfl hne
  | cons x xs => rfl

/-- Evaluating `validate_chain` after appending a block to a non-empty chain. -/
theorem validate_chain_append (c : Chain) (b : Block) (hne : c ≠ []) :
    Blockchain.validate_chain (c ++ [b]) =
      some (((c.zip (c.drop 1)).all fun ab => Blockchain.link_ok ab.1 ab.2) &&
        Blockchain.link_ok (Blockchain.lastD c) b) := by
  rw [validate_chain_of_ne (c ++ [b]) (by simp), zip_drop_one_append b c hne,
    List.all_append]
  simp [Blockchain.lastD]

/-- The last block of a chain extended by one block. -/
theorem lastD_concat (c : Chain) (b : Block) :
    Blockchain.lastD (c ++ [b]) = b := by
  simp [Blockchain.lastD, List.getLast?_concat]

/-- Every reachable ledger state has a chain that `validate_chain`
accepts; the seal-order check `valid_proof(b.proof, a.proof)` of the
validator accepts the seal mining produced with `a.proof` as work target,
by the symmetry of `valid_proof`. -/
theorem reachable_validate {bc : Blockchain} (h : Reachable bc) :
    Blockchain.validate_chain bc.chain = some true := by
  induction h with
  | new t => rfl
  | add_tx s r a _ ih => exact ih
  | mine_step uuid t hne hpow _ ih =>
    rename_i bc' _
    have hchain : (bc'.mine uuid t hne hpow).1.chain =
        bc'.chain ++ [(bc'.mine uuid t hne hpow).2] := rfl
    rw [hchain, validate_chain_append _ _ hne]
    rw [validate_chain_of_ne _ hne] at ih
    have hall : (bc'.chain.zip (bc'.chain.drop 1)).all
        (fun ab => Blockchain.link_ok ab.1 ab.2) = true := Option.some.inj ih
    have hlink : Blockchain.link_ok (Blockchain.lastD bc'.chain)
        (bc'.mine uuid t hne hpow).2 = true := by
      unfold Blockchain.link_ok
      have hph : (bc'.mine uuid t hne hpow).2.previous_hash =
          Blockchain.hash (Blockchain.lastD bc'.chain) := rfl
      have hpf : (bc'.mine uuid t hne hpow).2.proof =
          Blockchain.proof_of_work (Blockchain.lastD bc'.chain).proof hpow := rfl
      rw [hph, hpf, beq_self_eq_true, Bool.true_and]
      have hs := Nat.find_spec hpow
      rw [valid_proof_comm] at hs
      exact hs
    rw [hall, hlink]
    rfl

/-- The seal a `mine` step produces is accepted against the work target it
was mined from — with the arguments in the mined block's order. -/
theorem mine_block_proof (bc : Blockchain) (uuid : String) (t : Int)
    (hne : bc.chain ≠ [])
    (h : ∃ p, Blockchain.valid_proof (Blockchain.lastD bc.chain).proof p = true) :
    Blockchain.valid_proof ((bc.mine uuid t hne h).2.proof)
      (Blockchain.lastD bc.chain).proof = true := by
  have hs := Nat.find_spec h
  rw [valid_proof_comm] at hs
  exact hs

/-- The demonstration chain after the first mine is non-empty. -/
theorem bcDemo3_ne : bcDemo3.chain ≠ [] := by decide

/-- The second mine's proof-of-work search terminates: the previous seal
`100` is itself an accepted candidate against the first mined seal, because
the predicate is symmetric and the first mined seal was accepted against
`100`. -/
theorem bcDemo3_pow :
    ∃ p, Blockchain.valid_proof (Blockchain.lastD bcDemo3.chain).proof p = true := by
  refine ⟨100, ?_⟩
  have hchain : bcDemo3.chain = bcDemo1.chain ++ [mineDemo1.2] := rfl
  rw [hchain, lastD_concat]
  exact mine_block_proof bcDemo1 "node-1" 1 (by decide) ⟨3297, by decide⟩

/-! ## Claims -/

/-- C1: every chain built by constructing a fresh `Ledger` and performing
any sequence of `add_transaction` and `mine` operations passes `validate`:
the validator's seal-order check `valid_proof(b.proof, a.proof)` accepts
exactly the seals mining produced with `a.proof` as the work target. -/
theorem claim_C1 (bc : Blockchain) (h : Reachable bc) :
    Blockchain.validate_chain bc.chain = some true :=
  reachable_validate h

/-- C1 witness: the spec's concrete scenario — transaction added, mined,
transaction added, mined — validates. -/
theorem claim_C1_witness :
    Blockchain.validate_chain
      ((bcDemo3.mine "node-1" 2 bcDemo3_ne bcDemo3_pow).1.chain) = some true :=
  claim_C1 _ (Reachable.mine_step "node-1" 2 bcDemo3_ne bcDemo3_pow
    (Reachable.add_tx "alice" "bob" 15
      (Reachable.mine_step "node-1" 1 (by decide) ⟨3297, by decide⟩
        (Reachable.add_tx "alice" "bob" 10 (Reachable.new 0)))))

/-- C2: `resolve` returns true iff some fetched chain is strictly longer
than the local one and passes `validate`; on success the local chain is
replaced wholesale by the first such chain in iteration order; on failure
it is untouched; the pending pool is untouched in every case. -/
theorem claim_C2 (bc : Blockchain) (fetched : List Chain) :
    ((bc.resolve_conflicts fetched).2 = true ↔
      ∃ c ∈ fetched, bc.chain.length < c.length ∧
        Blockchain.validate_chain c = some true) ∧
    (bc.resolve_conflicts fetched).1.pending_transactions =
      bc.pending_transactions ∧
    ((bc.resolve_conflicts fetched).2 = false →
      (bc.resolve_conflicts fetched).1.chain = bc.chain) ∧
    ((bc.resolve_conflicts fetched).2 = true →
      ∃ pre c suf, fetched = pre ++ c :: suf ∧
        (bc.resolve_conflicts fetched).1.chain = c ∧
        bc.chain.length < c.length ∧
        Blockchain.validate_chain c = some true ∧
        ∀ c' ∈ pre, ¬(bc.chain.length < c'.length ∧
          Blockchain.validate_chain c' = some true)) := by
  have hP : ∀ c : Chain,
      ((decide (bc.chain.length < c.length) &&
        (Blockchain.validate_chain c == some true)) = true) ↔
      (bc.chain.length < c.length ∧
        Blockchain.validate_chain c = some true) := by
    intro c
    rw [Bool.and_eq_true, decide_eq_true_iff, beq_iff_eq]
  cases hf : fetched.find? (fun c => decide (bc.chain.length < c.length) &&
      (Blockchain.validate_chain c == some true)) with
  | none =>
    have hres : bc.resolve_conflicts fetched = (bc, false) := by
      unfold Blockchain.resolve_conflicts
      rw [hf]
    rw [List.find?_eq_none] at hf
    rw [hres]
    refine ⟨⟨fun hfalse => Bool.noConfusion hfalse, ?_⟩, rfl, fun _ => rfl,
      fun hfalse => Bool.noConfusion hfalse⟩
    rintro ⟨c, hc, hlt, hv⟩
    exact absurd ((hP c).mpr ⟨hlt, hv⟩) (hf c hc)
  | some c =>
    have hres : bc.resolve_conflicts fetched = ({ bc with chain := c }, true) := by
      unfold Blockchain.resolve_conflicts
      rw [hf]
    rw [List.find?_eq_some] at hf
    obtain ⟨hpc, pre, suf, hsplit, hpre⟩ := hf
    rw [hres]
    obtain ⟨hlt, hv⟩ := (hP c).mp hpc
    refine ⟨⟨fun _ => ⟨c, ?_, hlt, hv⟩, fun _ => rfl⟩, rfl,
      fun hfalse => Bool.noConfusion hfalse,
      fun _ => ⟨pre, c, suf, hsplit, rfl, hlt, hv, ?_⟩⟩
    · rw [hsplit]
      exact List.mem_append_right pre (List.mem_cons_self c suf)
    · intro c' hc' hcontra
      have hnot := hpre c' hc'
      rw [(hP c').mpr hcontra] at hnot
      exact Bool.noConfusion hnot

/-- C2 witness: against a single fetched chain that is not longer than the
local one, `resolve` reports false and leaves chain and pool untouched. -/
theorem claim_C2_witness :
    (bcDemo0.resolve_conflicts [[]]).2 = false ∧
    (bcDemo0.resolve_conflicts [[]]).1.chain = bcDemo0.chain ∧
    (bcDemo0.resolve_conflicts [[]]).1.pending_transactions = [] := by
  have h := claim_C2 bcDemo0 [[]]
  have h2 : (bcDemo0.resolve_conflicts [[]]).2 = false := by
    rw [← Bool.not_eq_true]
    intro ht
    rcases h.1.mp ht with ⟨c, hc, hlt, _⟩
    rcases List.mem_singleton.mp hc with rfl
    exact absurd hlt (by decide)
  exact ⟨h2, h.2.2.1 h2, h.2.1⟩

/-- C3: `mine` appends exactly one block — the returned one — whose
transactions are the pending pool followed by the reward transaction
`{sender: "0", recipient: miner, amount: 1}`, whose index is the old
length plus one, whose `previous_hash` is the hash of the old last block
and whose seal is the proof-of-work result for the old last seal; the
pool is empty afterwards. -/
theorem claim_C3 (bc : Blockchain) (uuid : String) (t : Int)
    (hne : bc.chain ≠ [])
    (h : ∃ p, Blockchain.valid_proof (Blockchain.lastD bc.chain).proof p = true)
    (hlen : bc.chain.length + 1 < 2 ^ 32) :
    (bc.mine uuid t hne h).1.chain = bc.chain ++ [(bc.mine uuid t hne h).2] ∧
    (bc.mine uuid t hne h).2.transactions =
      bc.pending_transactions ++
        [Transaction.new Blockchain.ORIGIN_SENDER uuid 1] ∧
    (bc.mine uuid t hne h).2.index = bc.chain.length + 1 ∧
    (bc.mine uuid t hne h).2.previous_hash =
      Blockchain.hash (Blockchain.lastD bc.chain) ∧
    (bc.mine uuid t hne h).2.proof =
      Blockchain.proof_of_work (Blockchain.lastD bc.chain).proof h ∧
    (bc.mine uuid t hne h).2.timestamp = t ∧
    (bc.mine uuid t hne h).1.pending_transactions = [] := by
  refine ⟨rfl, rfl, ?_, rfl, rfl, rfl, rfl⟩
  show (bc.chain.length % 2 ^ 32 + 1) % 2 ^ 32 = bc.chain.length + 1
  have h1 : bc.chain.length % 2 ^ 32 = bc.chain.length :=
    Nat.mod_eq_of_lt (by omega)
  rw [h1, Nat.mod_eq_of_lt hlen]

/-- C3 witness: mining on the fresh one-transaction ledger produces the
block `[{alice→bob, 10}, {0→node-1, 1}]` at index 2 and empties the
pool. -/
theorem claim_C3_witness :
    bcDemo2.chain = bcDemo1.chain ++ [mineDemo1.2] ∧
    mineDemo1.2.transactions =
      [Transaction.new "alice" "bob" 10, Transaction.new "0" "node-1" 1] ∧
    mineDemo1.2.index = 2 ∧
    bcDemo2.pending_transactions = [] := by
  have h := claim_C3 bcDemo1 "node-1" 1 (by decide) ⟨3297, by decide⟩ (by decide)
  exact ⟨h.1, h.2.1, h.2.2.1, h.2.2.2.2.2.2⟩

/-- C4 counterexample: for `previous_seal = 0` every product is `0`, whose
digest does not end in `"0000"`, so no candidate is ever accepted: the
linear search of `proof_of_work(0)` runs forever, a failure mode the
claim denies. -/
theorem claim_C4_counterexample :
    ¬ ∃ p, Blockchain.valid_proof 0 p = true := by
  rintro ⟨p, hp⟩
  have hf : Blockchain.valid_proof 0 p = false := by
    unfold Blockchain.valid_proof
    rw [Nat.zero_mul]
    decide
  rw [hf] at hp
  exact Bool.noConfusion hp

/-- C4 (amended): whenever some candidate is accepted for the given seal,
the linear search from 0 terminates and `proof_of_work` returns the
smallest accepted candidate.  (As stated the claim fails: for
`previous_seal = 0` no candidate is ever accepted and the search does not
terminate — `claim_C4_counterexample`.) -/
theorem claim_C4 (s : Nat) (h : ∃ p, Blockchain.valid_proof s p = true) :
    Blockchain.valid_proof s (Blockchain.proof_of_work s h) = true ∧
    ∀ m < Blockchain.proof_of_work s h,
      Blockchain.valid_proof s m = false := by
  refine ⟨Nat.find_spec h, ?_⟩
  intro m hm
  simpa using Nat.find_min h hm

/-- C4 witness: for seal 1 a candidate is accepted (31214), so the search
returns an accepted candidate below which all candidates are rejected. -/
theorem claim_C4_witness :
    ∃ h : ∃ p, Blockchain.valid_proof 1 p = true,
      Blockchain.valid_proof 1 (Blockchain.proof_of_work 1 h) = true ∧
      ∀ m < Blockchain.proof_of_work 1 h,
        Blockchain.valid_proof 1 m = false :=
  ⟨⟨31214, by decide⟩, claim_C4 1 ⟨31214, by decide⟩⟩

/-- C5: the acceptance predicate digests the decimal string of the
wrapping product and demands a `"0000"` suffix of the hex digest;
concretely `accepts(1, 31214)` holds and `accepts(1, 31213)` does not. -/
theorem claim_C5 :
    (∀ a b : Nat,
      Blockchain.valid_proof a b =
        strEndsWith
          (Sha256.hexDigest (strBytes (Nat.repr (a * b % 2 ^ 64))))
          "0000") ∧
    Blockchain.valid_proof 1 31214 = true ∧
    Blockchain.valid_proof 1 31213 = false :=
  ⟨fun _ _ => rfl, by decide, by decide⟩

/-- C6 counterexample: on the empty block sequence the validator panics
(`&chain[1..]` is out of range), so `validate` is not total on every
input sequence including the empty one. -/
theorem claim_C6_counterexample : Blockchain.validate_chain [] = none := rfl

/-- C6 (amended): `validate` is a pure boolean function on every
*non-empty* block sequence (on the empty one the slice `&chain[1..]`
panics), and a single-block chain is vacuously valid. -/
theorem claim_C6 (chain : Chain) (hne : chain ≠ []) :
    (Blockchain.validate_chain chain).isSome = true ∧
    ∀ b : Block, chain = [b] → Blockchain.validate_chain chain = some true := by
  constructor
  · rw [validate_chain_of_ne chain hne]
    rfl
  · rintro b rfl
    rfl

/-- C6 witness: the genesis-only chain is defined and vacuously valid. -/
theorem claim_C6_witness :
    (Blockchain.validate_chain bcDemo0.chain).isSome = true ∧
    Blockchain.validate_chain bcDemo0.chain = some true := by
  have h := claim_C6 bcDemo0.chain (by decide)
  exact ⟨h.1, h.2 _ rfl⟩

/-- C7 counterexample: on a fresh ledger `add_transaction` returns `1`
(the current chain length), but after `mine` the transaction sits in the
block of index `2` — the returned value is not the index the transaction
occupies once sealed. -/
theorem claim_C7_counterexample :
    (bcDemo0.new_transaction "alice" "bob" 10).2 = 1 ∧
    mineDemo1.2.transactions.contains (Transaction.new "alice" "bob" 10) =
      true ∧
    mineDemo1.2.index = 2 ∧ (1 : Nat) ≠ 2 := by
  refine ⟨rfl, by decide, rfl, by decide⟩

/-- C7 (amended): `add_transaction` appends exactly the given transaction
to the pending pool, leaves the chain alone, and returns the current chain
length — which is one *less* than the index the transaction will occupy
once sealed by the next `mine`. -/
theorem claim_C7 (bc : Blockchain) (s r : String) (a : Nat)
    (hlen : bc.chain.length + 1 < 2 ^ 32) :
    (bc.new_transaction s r a).1.pending_transactions =
      bc.pending_transactions ++ [Transaction.new s r a] ∧
    (bc.new_transaction s r a).1.chain = bc.chain ∧
    (bc.new_transaction s r a).2 = bc.chain.length ∧
    ∀ uuid t hne h,
      (((bc.new_transaction s r a).1.mine uuid t hne h).2).index =
        bc.chain.length + 1 := by
  refine ⟨rfl, rfl, ?_, ?_⟩
  · show bc.chain.length % 2 ^ 32 = bc.chain.length
    exact Nat.mod_eq_of_lt (by omega)
  · intro uuid t hne h
    show (bc.chain.length % 2 ^ 32 + 1) % 2 ^ 32 = bc.chain.length + 1
    have h1 : bc.chain.length % 2 ^ 32 = bc.chain.length :=
      Nat.mod_eq_of_lt (by omega)
    rw [h1, Nat.mod_eq_of_lt hlen]

/-- C7 witness: on the fresh ledger the call returns 1, the chain is
untouched, and the next mined block has index 2. -/
theorem claim_C7_witness :
    bcDemo1.pending_transactions = [Transaction.new "alice" "bob" 10] ∧
    bcDemo1.chain = bcDemo0.chain ∧
    (bcDemo0.new_transaction "alice" "bob" 10).2 = 1 ∧
    mineDemo1.2.index = 2 := by
  have h := claim_C7 bcDemo0 "alice" "bob" 10 (by decide)
  exact ⟨h.1, h.2.1, h.2.2.1, h.2.2.2 "node-1" 1 (by decide) ⟨3297, by decide⟩⟩

/-- C8: `register` on a known peer is a success no-op (`Ok(false)`, set
unchanged); a failed handshake on a new peer propagates the error and does
not add the peer; a successful handshake on a new peer adds it and
reports `Ok(true)`. -/
theorem claim_C8 (mgr : P2PNodeManager) (remote : Node)
    (hs : Except NetError Unit) :
    (mgr.nodes.contains remote = true →
      mgr.add_node remote hs = Except.ok (mgr, false)) ∧
    (mgr.nodes.contains remote = false →
      ∀ e, hs = Except.error e → mgr.add_node remote hs = Except.error e) ∧
    (mgr.nodes.contains remote = false → hs = Except.ok () →
      mgr.add_node remote hs =
        Except.ok ({ mgr with nodes := mgr.nodes ++ [remote] }, true)) := by
  refine ⟨?_, ?_, ?_⟩
  · intro hc
    unfold P2PNodeManager.add_node
    rw [hc]
    rfl
  · intro hc e he
    unfold P2PNodeManager.add_node
    rw [hc, he]
    rfl
  · intro hc he
    unfold P2PNodeManager.add_node
    rw [hc, he]
    rfl

/-- C8 witness: a failed handshake with an unknown peer propagates the
error; a successful one adds the peer. -/
theorem claim_C8_witness :
    (P2PNodeManager.new ⟨"self"⟩).add_node ⟨"peer"⟩ (Except.error ⟨7⟩) =
      Except.error ⟨7⟩ ∧
    (P2PNodeManager.new ⟨"self"⟩).add_node ⟨"peer"⟩ (Except.ok ()) =
      Except.ok (⟨⟨"self"⟩, [⟨"peer"⟩]⟩, true) := by
  refine ⟨?_, ?_⟩
  · exact (claim_C8 (P2PNodeManager.new ⟨"self"⟩) ⟨"peer"⟩
      (Except.error ⟨7⟩)).2.1 (by decide) ⟨7⟩ rfl
  · exact (claim_C8 (P2PNodeManager.new ⟨"self"⟩) ⟨"peer"⟩
      (Except.ok ())).2.2 (by decide) rfl

/-- C9 counterexample: nothing stops the local address from being
registered as a peer — `add_node` of the self-address succeeds and stores
it — and `get_chains` then issues a chain fetch to the stored self-address
(the fetch map below answers only the self node, and its answer shows up
in the result), even though `get_nodes` filters it from listings. -/
theorem claim_C9_counterexample :
    (P2PNodeManager.new ⟨"self"⟩).add_node ⟨"self"⟩ (Except.ok ()) =
      Except.ok (⟨⟨"self"⟩, [⟨"self"⟩]⟩, true) ∧
    P2PNodeManager.get_chains ⟨⟨"self"⟩, [⟨"self"⟩]⟩
      (fun n => if n = ⟨"self"⟩ then Except.ok [] else Except.error ⟨0⟩) =
      [[]] ∧
    P2PNodeManager.get_nodes ⟨⟨"self"⟩, [⟨"self"⟩]⟩ = [] := by
  refine ⟨rfl, by decide, by decide⟩

/-- C9 (amended): the per-peer listing `get_nodes` never returns the
node's own address — but the peer set itself can contain it, and
`get_chains` does fetch from it then (see the counterexample). -/
theorem claim_C9 (mgr : P2PNodeManager) :
    mgr.get_nodes.contains mgr.local_node = false := by
  rw [← Bool.not_eq_true]
  intro hc
  have hmem : mgr.local_node ∈ mgr.get_nodes :=
    List.mem_of_elem_eq_true hc
  rw [P2PNodeManager.get_nodes, List.mem_filter] at hmem
  have := hmem.2
  simp at this

/-- C10: the proof-of-work acceptance predicate is commutative — it
digests the wrapping product of its two operands — which is exactly why
the validator's reversed argument order (`b.proof` as target, `a.proof`
as candidate) accepts forward-mined chains. -/
theorem claim_C10 (x y : Nat) :
    Blockchain.valid_proof x y = Blockchain.valid_proof y x := by
  unfold Blockchain.valid_proof
  rw [Nat.mul_comm]
